import Mathlib

/- A shallow embedding of quanalys acquisition_utils/analysis_data.py: the
AnalysisData container with its dict protocol, locking model, dirty-key
tracking and incremental save protocol, together with theorems checking the
specification of that module against the code. -/

namespace Quanalys

/-- Errors raised by the container: the ValueError, TypeError, KeyError and
AttributeError variants that appear in analysis_data.py, distinguished by the
raise site. -/
inductive Err where
  | roAttr (key : String)
  | roSave
  | noFilepathSave
  | harrNoFile
  | harrNoSaveOnEdit
  | keyErr (key : String)
  | attrErr (key : String)
  | lockRO
  | unlockRO
  | fileExists
  | roNoFile
  | roOverwrite
deriving DecidableEq

/-- External array handle (H5NpArray): an opaque payload plus the optional
(filepath, filekey) binding that the init filepath call sets. -/
structure H5Handle where
  payload : Nat
  hfilepath : Option String := none
  hfilekey : Option String := none
deriving DecidableEq

/-- Stored values: opaque primitives, nested mappings, or array handles. -/
inductive Value where
  | prim : Nat → Value
  | vdict : List (String × Value) → Value
  | harr : H5Handle → Value

abbrev PyDict := List (String × Value)

def Value.isHarr : Value → Bool
  | .harr _ => true
  | _ => false

def dictKeys (d : PyDict) : List String := d.map Prod.fst

def dictHasKey (d : PyDict) (k : String) : Bool := (dictKeys d).contains k

def dictGet (d : PyDict) (k : String) : Option Value :=
  (d.find? (fun p => p.1 == k)).map Prod.snd

/-- Python dict assignment: overwrite in place when the key is present,
append otherwise. -/
def dictInsert (d : PyDict) (k : String) (v : Value) : PyDict :=
  if dictHasKey d k then d.map (fun p => if p.1 == k then (p.1, v) else p)
  else d ++ [(k, v)]

def dictUpdate (d : PyDict) (kvs : PyDict) : PyDict :=
  kvs.foldl (fun acc p => dictInsert acc p.1 p.2) d

def dictRemove (d : PyDict) (k : String) : PyDict :=
  d.filter (fun p => !(p.1 == k))

/-- Python set.add on a set represented as a duplicate-free list. -/
def setInsert (s : List String) (k : String) : List String :=
  if s.contains k then s else s ++ [k]

/-- The read_only field: True, False, or a set of locked keys. -/
inductive ROState where
  | roTrue
  | roFalse
  | roSet (s : List String)
deriving DecidableEq

/-- Python truthiness of the read_only value (a nonempty set is truthy). -/
def roTruthy : ROState → Bool
  | .roTrue => true
  | .roFalse => false
  | .roSet s => !s.isEmpty

/-- The state of an AnalysisData instance. The writes field logs, in order,
every (filename, mapping) pair handed to the codec save_dict call. -/
structure State where
  _data : PyDict
  _attrs : List String
  _last_update : List String
  _save_on_edit : Bool
  _read_only : ROState
  _filepath : Option String
  _last_data_saved : Bool
  _repr_cached : Bool
  writes : List (String × List (String × Option Value))

/-- check_read_only_true: self read_only and (read_only is True or key in
read_only). -/
def checkReadOnly (ro : ROState) (key : String) : Bool :=
  match ro with
  | .roTrue => true
  | .roFalse => false
  | .roSet s => !s.isEmpty && s.contains key

/-- Modelled from the spec: transform_to_possible_formats lives in the
external h5py_utils module, which is not part of the core; the spec scopes the
encoding of values out of the model and treats stored values, array handles
included, as opaque data forwarded unchanged, so on the abstract value domain
it is the identity. -/
def transform_to_possible_formats (v : Value) : Value := v

/-- Python str.rstrip with the character set of the string ".h5": drop
trailing characters that are a dot, an h or a 5. -/
def pyRstripH5 (s : String) : String :=
  ⟨(s.data.reverse.dropWhile (fun c => c == '.' || c == 'h' || c == '5')).reverse⟩

/-- Python "filepath or filepath2": the first operand wins unless it is None
or the empty string. -/
def pyOrStr (a b : Option String) : Option String :=
  match a with
  | some s => if s == "" then b else some s
  | none => b

/-- save(just_update, filepath): the write handed to the codec is recorded on
the writes log. Note that the dirty-set swap and the saved flag are committed
before the filepath check, exactly as in the source. -/
def save (st : State) (just_update : Bool) (filepath : Option String) :
    State × Option Err :=
  match st._read_only with
  | .roTrue => (st, some .roSave)
  | _ =>
    let last_update := st._last_update
    let st1 := { st with _last_data_saved := true, _last_update := [] }
    match pyOrStr filepath st1._filepath with
    | none => (st1, some .noFilepathSave)
    | some fp =>
      let base := pyRstripH5 fp
      if just_update then
        ({ st1 with writes := st1.writes ++
            [(base ++ ".h5",
              last_update.map (fun k => (k, dictGet st1._data k)))] }, none)
      else
        ({ st1 with writes := st1.writes ++
            [(base ++ ".h5", st1._data.map (fun p => (p.1, some p.2)))] }, none)

/-- The editing decorator: clear the saved flag, run the body, and on success
invalidate the cached repr and auto-save when save_on_edit is set. An
exception in the body propagates together with whatever state changes the
body made before raising. -/
def editing (body : State → State × Option Err) (st : State) :
    State × Option Err :=
  let st1 := { st with _last_data_saved := false }
  match body st1 with
  | (st2, some e) => (st2, some e)
  | (st2, none) =>
    let st3 := { st2 with _repr_cached := false }
    if st3._save_on_edit then save st3 true none else (st3, none)

/-- add_key: record the key among the attrs and in the dirty set. -/
def addKey (st : State) (k : String) : State :=
  { st with _attrs := setInsert st._attrs k,
            _last_update := setInsert st._last_update k }

/-- Body of update: check and record the keys one at a time, transforming the
values in place, and apply the dict update only after the whole loop. -/
def updateLoop (st : State) (acc : PyDict) : PyDict → State × Option Err
  | [] => ({ st with _data := dictUpdate st._data acc }, none)
  | (k, v) :: rest =>
    if checkReadOnly st._read_only k then (st, some (.roAttr k))
    else updateLoop (addKey st k)
      (acc ++ [(k, transform_to_possible_formats v)]) rest

def update (st : State) (kwds : PyDict) : State × Option Err :=
  editing (fun s => updateLoop s [] kwds) st

/-- The private update of internal data and attrs only, used by load. -/
def updateInternal (st : State) (kwds : PyDict) : State :=
  { st with _attrs := (dictKeys kwds).foldl setInsert st._attrs,
            _data := dictUpdate st._data kwds }

/-- Modelled from the spec: open_h5 is the codec load(path) -> mapping, which
lives in the external h5py_utils module; a path with nothing stored loads the
empty mapping. -/
def open_h5 (fs : String → Option PyDict) (path : String) : PyDict :=
  (fs path).getD []

def loadFromH5 (fs : String → Option PyDict) (st : State) (filepath : String) :
    State :=
  updateInternal st (open_h5 fs (pyRstripH5 filepath ++ ".h5"))

/-- Body of pop: the del-key bookkeeping runs before the dict pop, and the
set remove raises KeyError when the key is absent from attrs. -/
def popBody (st : State) (k : String) : State × Option Err :=
  if checkReadOnly st._read_only k then (st, some (.roAttr k))
  else if st._attrs.contains k then
    let st2 := { st with _attrs := st._attrs.erase k,
                         _last_update := setInsert st._last_update k }
    if dictHasKey st2._data k then
      ({ st2 with _data := dictRemove st2._data k }, none)
    else (st2, some (.keyErr k))
  else (st, some (.keyErr k))

def pop (st : State) (k : String) : State × Option Err :=
  editing (fun s => popBody s k) st

/-- The init filepath call on an array handle binds it to (filepath, key). -/
def bindHandle (h : H5Handle) (fp k : String) : H5Handle :=
  { h with hfilepath := some fp, hfilekey := some k }

/-- Body of setitem: read-only check, key bookkeeping, value transformation,
then the array-handle checks and binding, then the dict assignment. -/
def setitemBody (st : State) (k : String) (v : Value) : State × Option Err :=
  if checkReadOnly st._read_only k then (st, some (.roAttr k))
  else
    let st2 := addKey st k
    match transform_to_possible_formats v with
    | .harr h =>
      match st2._filepath with
      | none => (st2, some .harrNoFile)
      | some fp =>
        if st2._save_on_edit then
          ({ st2 with
              _data := dictInsert st2._data k (.harr (bindHandle h fp k)) },
            none)
        else (st2, some .harrNoSaveOnEdit)
    | v2 => ({ st2 with _data := dictInsert st2._data k v2 }, none)

/-- setitem; setattr on a public (non-underscore) name delegates here, so it
is the same function. Underscore names write internal fields through the
object setattr and are not part of the public data surface. -/
def setitem (st : State) (k : String) (v : Value) : State × Option Err :=
  editing (fun s => setitemBody s k v) st

/-- The state a successful setitem body produces: key recorded in attrs and
in the dirty set, value stored in the data dict. -/
def setitemOkState (st : State) (k : String) (v : Value) : State :=
  let st2 := addKey st k
  { st2 with _data := dictInsert st2._data k v }

def get (st : State) (k : String) (default : Option Value) : Option Value :=
  match dictGet st._data k with
  | some v => some v
  | none => default

/-- getitem with a single string key. -/
def getItemStr (st : State) (k : String) : Option Value := dictGet st._data k

/-- Python indexing of a stored value: defined on nested mappings, raising
(none) on primitives and array handles, or on an absent key. -/
def valueIndex : Value → String → Option Value
  | .vdict d, k => dictGet d k
  | _, _ => none

def tupleLoop : Value → List String → Option Value
  | v, [] => some v
  | v, k :: ks =>
    match valueIndex v k with
    | some v2 => tupleLoop v2 ks
    | none => none

/-- getitem with a tuple key: start from the underlying dict and index
through it key by key. -/
def tupleGet (st : State) (keys : List String) : Option Value :=
  tupleLoop (.vdict st._data) keys

/-- Chained single-key indexing: getitem for the first key, then Python
indexing of each returned value in turn. -/
def chainGet (st : State) (k : String) (ks : List String) : Option Value :=
  ks.foldl (fun acc key => acc.bind (fun v => valueIndex v key))
    (getItemStr st k)

/-- delattr: a name present in the data goes through delitem, hence pop; any
other public name raises AttributeError. -/
def delattrOp (st : State) (k : String) : State × Option Err :=
  if dictHasKey st._data k then pop st k else (st, some (.attrErr k))

/-- lock_data: refuse under global read-only, otherwise coerce the read-only
field to a set and add the given keys (all current data keys by default). -/
def lock_data (st : State) (keys : Option (List String)) : State × Option Err :=
  match st._read_only with
  | .roTrue => (st, some .lockRO)
  | ro =>
    let s0 : List String := match ro with | .roSet s => s | _ => []
    let ks := keys.getD (dictKeys st._data)
    ({ st with _read_only := .roSet (ks.foldl setInsert s0) }, none)

/-- The removal loop of clean_lock: set.remove raises KeyError on an absent
key, and removals made before the failure persist. -/
def removeLockKeys : List String → List String → List String × Option Err
  | s, [] => (s, none)
  | s, k :: ks =>
    if s.contains k then removeLockKeys (s.erase k) ks
    else (s, some (.keyErr k))

/-- clean_lock: refuse under global read-only; when a locked set exists,
clear it entirely (keys None) or remove the named keys; otherwise return the
container unchanged. -/
def clean_lock (st : State) (remove_keys : Option (List String)) :
    State × Option Err :=
  match st._read_only with
  | .roTrue => (st, some .unlockRO)
  | .roSet s =>
    match remove_keys with
    | none => ({ st with _read_only := .roFalse }, none)
    | some ks =>
      match removeLockKeys s ks with
      | (s2, oe) => ({ st with _read_only := .roSet s2 }, oe)
  | .roFalse => (st, none)

/-- Python truthiness of the overwrite argument. -/
def ovTruthy : Option Bool → Bool
  | some true => true
  | _ => false

/-- The read_only constructor argument: absent, a bool, or a set of keys. -/
inductive ROArg where
  | roNone
  | roBool (b : Bool)
  | roSetArg (s : List String)

/-- Resolution of the read-only mode: when the argument is absent it defaults
to (save_on_edit is False and not overwrite) and filepath is not None. -/
def roOfArg (filepath : Option String) (save_on_edit : Bool)
    (overwrite : Option Bool) : ROArg → ROState
  | .roNone =>
    if ((save_on_edit == false) && !(ovTruthy overwrite)) && filepath.isSome
    then .roTrue else .roFalse
  | .roBool true => .roTrue
  | .roBool false => .roFalse
  | .roSetArg s => .roSet s

/-- The AnalysisData constructor. fs models the file system as seen through
the codec: path to stored mapping for existing files, none for missing
files. The os.remove call on overwrite has no modelled effect since the
resulting state never reads the file afterwards. -/
def init (fs : String → Option PyDict) (filepath : Option String)
    (save_on_edit : Bool) (read_only : ROArg) (overwrite : Option Bool) :
    Except Err State :=
  let ro := roOfArg filepath save_on_edit overwrite read_only
  let st0 : State :=
    { _data := [], _attrs := [], _last_update := [],
      _save_on_edit := save_on_edit, _read_only := ro, _filepath := none,
      _last_data_saved := false, _repr_cached := false, writes := [] }
  match filepath with
  | none => .ok st0
  | some fp0 =>
    let fp := pyRstripH5 fp0 ++ ".h5"
    if (ovTruthy overwrite || save_on_edit) && roTruthy ro then
      .error .roOverwrite
    else if (fs fp).isSome then
      if overwrite == none && !(roTruthy ro) then .error .fileExists
      else
        let st1 :=
          if roTruthy ro || (!(roTruthy ro) && !(ovTruthy overwrite)) then
            loadFromH5 fs st0 fp
          else st0
        if !(roTruthy ro) then .ok { st1 with _filepath := some fp }
        else .ok st1
    else if roTruthy ro then .error .roNoFile
    else .ok { st0 with _filepath := some fp }

/-- The public operations of the container. -/
inductive Op where
  | opUpdate (kwds : PyDict)
  | opSetItem (k : String) (v : Value)
  | opSetAttr (k : String) (v : Value)
  | opPop (k : String)
  | opDelItem (k : String)
  | opDelAttr (k : String)
  | opLock (keys : Option (List String))
  | opCleanLock (keys : Option (List String))
  | opSave (just_update : Bool) (fp : Option String)
  | opGet (k : String)
  | opGetItemT (keys : List String)
  | opRepr

/-- Whether the operation goes through the editing choke point. -/
def Op.isMut : Op → Bool
  | .opUpdate _ => true
  | .opSetItem _ _ => true
  | .opSetAttr _ _ => true
  | .opPop _ => true
  | .opDelItem _ => true
  | .opDelAttr _ => true
  | _ => false

/-- The keys a mutating operation names. -/
def Op.keysTouched : Op → List String
  | .opUpdate kwds => dictKeys kwds
  | .opSetItem k _ => [k]
  | .opSetAttr k _ => [k]
  | .opPop k => [k]
  | .opDelItem k => [k]
  | .opDelAttr k => [k]
  | _ => []

/-- One public call: the state afterwards, exceptions included (the error
component carries the exception; the state component carries whatever state
the partially executed call left behind). -/
def step (st : State) : Op → State × Option Err
  | .opUpdate kwds => update st kwds
  | .opSetItem k v => setitem st k v
  | .opSetAttr k v => setitem st k v
  | .opPop k => pop st k
  | .opDelItem k => pop st k
  | .opDelAttr k => delattrOp st k
  | .opLock ks => lock_data st ks
  | .opCleanLock ks => clean_lock st ks
  | .opSave ju fp => save st ju fp
  | .opGet _ => (st, none)
  | .opGetItemT keys =>
    (st, match tupleGet st keys with
         | some _ => none
         | none => some (.keyErr ""))
  | .opRepr => ({ st with _repr_cached := true }, none)

def run (st : State) (ops : List Op) : State :=
  ops.foldl (fun s op => (step s op).1) st

/-- A sequence of calls that are all mutations and all succeed. -/
def okRunB : State → List Op → Bool
  | _, [] => true
  | st, op :: rest =>
    op.isMut && ((step st op).2).isNone && okRunB (step st op).1 rest

/-- The keys named by a sequence of operations. -/
def touchedKeys (ops : List Op) : List String :=
  (ops.map Op.keysTouched).flatten

/-- States reachable from the constructor through public calls, where a
failing call is admitted except for failing bulk updates and item or
attribute sets that fail the array-handle configuration checks. -/
inductive Reach : State → Prop where
  | ofInit (fs : String → Option PyDict) (fp : Option String) (soe : Bool)
      (ro : ROArg) (ov : Option Bool) (st : State) :
      init fs fp soe ro ov = .ok st → Reach st
  | stepOk (st : State) (op : Op) : Reach st → (step st op).2 = none →
      Reach (step st op).1
  | stepErr (st : State) (op : Op) (e : Err) : Reach st →
      (step st op).2 = some e → (∀ kwds, op ≠ .opUpdate kwds) →
      e ≠ .harrNoFile → e ≠ .harrNoSaveOnEdit → Reach (step st op).1

/-- An empty file system: no path exists. -/
def fs0 : String → Option PyDict := fun _ => none

def exceptIsOk (e : Except Err State) : Bool :=
  match e with
  | .ok _ => true
  | .error _ => false

/-- The state of a fresh container constructed with no arguments. -/
def freshState : State :=
  { _data := [], _attrs := [], _last_update := [], _save_on_edit := false,
    _read_only := .roFalse, _filepath := none, _last_data_saved := false,
    _repr_cached := false, writes := [] }

/-- A writable container with one entry, a pending dirty key, and no bound
file path. -/
def c1State : State :=
  { _data := [("a", .prim 1)], _attrs := ["a"], _last_update := ["a"],
    _save_on_edit := false, _read_only := .roFalse, _filepath := none,
    _last_data_saved := false, _repr_cached := false, writes := [] }

def c2State : State := { freshState with _read_only := .roSet ["y"] }

def c10State : State := { freshState with _read_only := .roSet ["a"] }

/-- A container constructed with a path to a nonexistent file and auto-save
on: writable, with the path bound. -/
def c7Start : State :=
  { _data := [], _attrs := [], _last_update := [], _save_on_edit := true,
    _read_only := .roFalse, _filepath := some "f.h5",
    _last_data_saved := false, _repr_cached := false, writes := [] }

def h0 : H5Handle := { payload := 0 }

def c6State : State := { freshState with _read_only := .roTrue }

/-- The configuration fields that no operation body rewrites. -/
def sameCfg (st st2 : State) : Prop :=
  st2._read_only = st._read_only ∧ st2._save_on_edit = st._save_on_edit ∧
  st2._filepath = st._filepath

/-- The invariant relating known_keys to the key set of entries: attrs is a
set (no duplicates) with the same members as the keys of the data dict. -/
def attrsInv (st : State) : Prop :=
  st._attrs.Nodup ∧ ∀ k, k ∈ st._attrs ↔ k ∈ dictKeys st._data

/-- C1: code-bug exhibit. On a container with a pending dirty key and no
resolvable destination path, save fails with the missing-filepath error, yet
the dirty set (_last_update) has already been cleared by the failed call; the
spec requires a failed save to leave the dirty set unchanged. -/
theorem c1_save_failure_clears_dirty_keys :
    (save c1State true none).2 = some .noFilepathSave ∧
    ((save c1State true none).1)._last_update = [] ∧
    c1State._last_update = ["a"] :=
  ⟨rfl, rfl, rfl⟩

/-- C2 counterexample: on a partially locked container whose locked set
contains y, the bulk update naming x then y fails with the read-only error
but has already added x to known_keys and dirty_keys, so a failing bulk
update that also names keys outside the locked set does not leave known_keys
and dirty_keys unchanged. -/
theorem c2_counterexample :
    (update c2State [("x", .prim 3), ("y", .prim 4)]).2 = some (.roAttr "y") ∧
    ((update c2State [("x", .prim 3), ("y", .prim 4)]).1)._attrs = ["x"] ∧
    ((update c2State [("x", .prim 3), ("y", .prim 4)]).1)._last_update
      = ["x"] ∧
    c2State._attrs = [] ∧ c2State._last_update = [] :=
  ⟨rfl, rfl, rfl, rfl, rfl⟩

/-- C4 counterexample: starting from a fresh container, lock key b, then
issue the failing bulk update naming a then b: afterwards a is in known_keys
but absent from entries, so known_keys differs from the key set of entries
immediately after an operation that raised an error. -/
theorem c4_counterexample :
    init fs0 none false .roNone none = .ok freshState ∧
    (step (run freshState [.opLock (some ["b"])])
        (.opUpdate [("a", .prim 1), ("b", .prim 2)])).2 = some (.roAttr "b") ∧
    ((run freshState [.opLock (some ["b"]),
        .opUpdate [("a", .prim 1), ("b", .prim 2)]])._attrs).contains "a"
      = true ∧
    dictHasKey ((run freshState [.opLock (some ["b"]),
        .opUpdate [("a", .prim 1), ("b", .prim 2)]])._data) "a" = false :=
  ⟨rfl, rfl, rfl, rfl⟩

/-- C5 counterexample: with no file path given, construction with
read_only True together with save_on_edit True succeeds, so the
configuration-error check is not applied for every combination of the other
constructor arguments. -/
theorem c5_counterexample :
    exceptIsOk (init fs0 none true (.roBool true) none) = true :=
  rfl

/-- C5 amended: whenever a file path is given, construction with read_only
True together with overwrite True or save_on_edit True fails with the
configuration error; the check is skipped when no file path is given. -/
theorem c5_amended (fs : String → Option PyDict) (p : String) (soe : Bool)
    (ov : Option Bool) (h : ov = some true ∨ soe = true) :
    init fs (some p) soe (.roBool true) ov = .error .roOverwrite := by
  unfold init roOfArg
  rcases h with h | h
  · subst h
    simp [ovTruthy, roTruthy]
  · subst h
    simp [roTruthy]

theorem c5_amended_witness :
    ((some true : Option Bool) = some true ∨ (false : Bool) = true) ∧
    init fs0 (some "p") false (.roBool true) (some true)
      = .error .roOverwrite :=
  ⟨Or.inl rfl, c5_amended fs0 "p" false (some true) (Or.inl rfl)⟩

/-- C7 counterexample: a container with a bound file path and auto-save on
whose key x is lock-protected: setting x to an array handle fails with the
read-only error even though both array-handle preconditions hold, so the set
does not succeed whenever both hold. -/
theorem c7_counterexample :
    init fs0 (some "f") true .roNone none = .ok c7Start ∧
    (run c7Start [.opLock (some ["x"])])._filepath = some "f.h5" ∧
    (run c7Start [.opLock (some ["x"])])._save_on_edit = true ∧
    (setitem (run c7Start [.opLock (some ["x"])]) "x" (.harr h0)).2 =
      some (.roAttr "x") :=
  ⟨rfl, rfl, rfl, rfl⟩

/-- C8 counterexample: the claim says save_clean is true on a freshly
constructed container, but _last_data_saved is false on a fresh instance (the
class-level default), as the not-saved marker in repr also shows. -/
theorem c8_counterexample :
    init fs0 none false .roNone none = .ok freshState ∧
    freshState._last_data_saved = false :=
  ⟨rfl, rfl⟩

theorem foldl_none_bind (ks : List String) :
    ks.foldl (fun acc key => acc.bind (fun w => valueIndex w key)) none
      = none := by
  induction ks with
  | nil => rfl
  | cons k ks ih => simpa using ih

theorem tupleLoop_eq_foldl (ks : List String) (v : Value) :
    tupleLoop v ks =
      ks.foldl (fun acc key => acc.bind (fun w => valueIndex w key))
        (some v) := by
  induction ks generalizing v with
  | nil => rfl
  | cons k ks ih =>
    have hr : List.foldl (fun acc key => acc.bind (fun w => valueIndex w key))
        (some v) (k :: ks)
        = List.foldl (fun acc key => acc.bind (fun w => valueIndex w key))
          (valueIndex v k) ks := rfl
    rw [hr]
    cases h : valueIndex v k with
    | some v2 =>
      have hl : tupleLoop v (k :: ks) = tupleLoop v2 ks := by
        simp [tupleLoop, h]
      rw [hl]
      exact ih v2
    | none =>
      have hl : tupleLoop v (k :: ks) = none := by
        simp [tupleLoop, h]
      rw [hl, foldl_none_bind]

/-- C9: indexing with a tuple key equals chained single-key indexing through
the nested mappings, and a tuple lookup leaves the container state
unchanged. -/
theorem c9_tuple_indexing (st : State) (k : String) (ks : List String) :
    tupleGet st (k :: ks) = chainGet st k ks ∧
    (step st (.opGetItemT (k :: ks))).1 = st := by
  refine ⟨?_, rfl⟩
  show tupleLoop (.vdict st._data) (k :: ks) = chainGet st k ks
  rw [tupleLoop_eq_foldl]
  rfl

/-- C10: on an unlocked container (read-only flag False, no locked set),
clean_lock with any keys argument raises no error and returns the container
unchanged; the failure on unlocking a key that was never locked applies only
when a partial locked set exists. -/
theorem c10_clean_lock_unlocked (st : State) :
    (st._read_only = .roFalse → ∀ ks, clean_lock st ks = (st, none)) ∧
    (∀ s k, st._read_only = .roSet s → ¬ k ∈ s →
      (clean_lock st (some [k])).2 = some (.keyErr k)) := by
  constructor
  · intro h ks
    unfold clean_lock
    rw [h]
  · intro s k h hk
    unfold clean_lock
    rw [h]
    simp [removeLockKeys, hk]

theorem sameCfg_refl (st : State) : sameCfg st st := ⟨rfl, rfl, rfl⟩

theorem sameCfg_trans {a b c : State} (h1 : sameCfg a b) (h2 : sameCfg b c) :
    sameCfg a c :=
  ⟨h2.1.trans h1.1, h2.2.1.trans h1.2.1, h2.2.2.trans h1.2.2⟩

theorem save_sameCfg (st : State) (ju : Bool) (fp : Option String) :
    sameCfg st ((save st ju fp).1) := by
  unfold save
  split
  · exact sameCfg_refl _
  · dsimp only
    split
    · exact ⟨rfl, rfl, rfl⟩
    · split
      · exact ⟨rfl, rfl, rfl⟩
      · exact ⟨rfl, rfl, rfl⟩

theorem editing_sameCfg (body : State → State × Option Err) (st : State)
    (h : ∀ s, sameCfg s ((body s).1)) : sameCfg st ((editing body st).1) := by
  have h1 := h { st with _last_data_saved := false }
  unfold editing
  dsimp only
  cases hb : body { st with _last_data_saved := false } with
  | mk st2 oe =>
    rw [hb] at h1
    have h0 : sameCfg st st2 := sameCfg_trans ⟨rfl, rfl, rfl⟩ h1
    cases oe with
    | some e => exact h0
    | none =>
      dsimp only
      by_cases hs : st2._save_on_edit = true
      · rw [if_pos hs]
        exact sameCfg_trans (sameCfg_trans h0 ⟨rfl, rfl, rfl⟩)
          (save_sameCfg _ _ _)
      · rw [if_neg hs]
        exact sameCfg_trans h0 ⟨rfl, rfl, rfl⟩

theorem updateLoop_sameCfg (l : PyDict) (st : State) (acc : PyDict) :
    sameCfg st ((updateLoop st acc l).1) := by
  induction l generalizing st acc with
  | nil => exact sameCfg_refl _
  | cons p rest ih =>
    obtain ⟨k, v⟩ := p
    show sameCfg st ((if checkReadOnly st._read_only k then
        (st, some (.roAttr k))
      else updateLoop (addKey st k)
        (acc ++ [(k, transform_to_possible_formats v)]) rest).1)
    by_cases h : checkReadOnly st._read_only k = true
    · rw [if_pos h]
      exact sameCfg_refl _
    · rw [if_neg h]
      exact sameCfg_trans ⟨rfl, rfl, rfl⟩ (ih _ _)

theorem popBody_sameCfg (st : State) (k : String) :
    sameCfg st ((popBody st k).1) := by
  unfold popBody
  split
  · exact sameCfg_refl _
  · split
    · dsimp only
      split
      · exact ⟨rfl, rfl, rfl⟩
      · exact ⟨rfl, rfl, rfl⟩
    · exact sameCfg_refl _

theorem setitemBody_sameCfg (st : State) (k : String) (v : Value) :
    sameCfg st ((setitemBody st k v).1) := by
  unfold setitemBody
  split
  · exact sameCfg_refl _
  · dsimp only
    split
    · split
      · exact ⟨rfl, rfl, rfl⟩
      · split
        · exact ⟨rfl, rfl, rfl⟩
        · exact ⟨rfl, rfl, rfl⟩
    · exact ⟨rfl, rfl, rfl⟩

theorem delattrOp_sameCfg (st : State) (k : String) :
    sameCfg st ((delattrOp st k).1) := by
  unfold delattrOp
  split
  · exact editing_sameCfg _ st (fun s => popBody_sameCfg s k)
  · exact sameCfg_refl _

theorem lock_data_roTrue (st : State) (ks : Option (List String))
    (h : st._read_only = .roTrue) : lock_data st ks = (st, some .lockRO) := by
  unfold lock_data
  rw [h]

theorem clean_lock_roTrue (st : State) (ks : Option (List String))
    (h : st._read_only = .roTrue) : clean_lock st ks = (st, some .unlockRO) := by
  unfold clean_lock
  rw [h]

theorem step_ro_roTrue (st : State) (op : Op) (h : st._read_only = .roTrue) :
    ((step st op).1)._read_only = .roTrue := by
  cases op with
  | opUpdate kwds =>
    exact (editing_sameCfg _ st (fun s => updateLoop_sameCfg kwds s [])).1.trans h
  | opSetItem k v =>
    exact (editing_sameCfg _ st (fun s => setitemBody_sameCfg s k v)).1.trans h
  | opSetAttr k v =>
    exact (editing_sameCfg _ st (fun s => setitemBody_sameCfg s k v)).1.trans h
  | opPop k =>
    exact (editing_sameCfg _ st (fun s => popBody_sameCfg s k)).1.trans h
  | opDelItem k =>
    exact (editing_sameCfg _ st (fun s => popBody_sameCfg s k)).1.trans h
  | opDelAttr k =>
    exact (delattrOp_sameCfg st k).1.trans h
  | opLock ks =>
    show ((lock_data st ks).1)._read_only = .roTrue
    rw [lock_data_roTrue st ks h]
    exact h
  | opCleanLock ks =>
    show ((clean_lock st ks).1)._read_only = .roTrue
    rw [clean_lock_roTrue st ks h]
    exact h
  | opSave ju fp =>
    exact (save_sameCfg st ju fp).1.trans h
  | opGet k => exact h
  | opGetItemT keys => exact h
  | opRepr => exact h

theorem run_ro_roTrue (ops : List Op) (st : State)
    (h : st._read_only = .roTrue) : (run st ops)._read_only = .roTrue := by
  induction ops generalizing st with
  | nil => exact h
  | cons op rest ih => exact ih ((step st op).1) (step_ro_roTrue st op h)

theorem mem_setInsert (s : List String) (k x : String) :
    x ∈ setInsert s k ↔ x ∈ s ∨ x = k := by
  unfold setInsert
  split
  · next h =>
    have hk : k ∈ s := by simpa using h
    constructor
    · exact Or.inl
    · rintro (h1 | rfl)
      · exact h1
      · exact hk
  · simp

theorem setInsert_nodup (s : List String) (k : String) (h : s.Nodup) :
    (setInsert s k).Nodup := by
  unfold setInsert
  split
  · exact h
  · next hc =>
    have hk : ¬ k ∈ s := by simpa using hc
    simp [List.nodup_append, h, hk]

theorem dictGet_cons (p : String × Value) (rest : PyDict) (k : String) :
    dictGet (p :: rest) k = if p.1 == k then some p.2 else dictGet rest k := by
  unfold dictGet
  by_cases h : (p.1 == k) = true
  · simp [List.find?, h]
  · simp [List.find?, h]

theorem dictHasKey_iff (d : PyDict) (k : String) :
    dictHasKey d k = true ↔ k ∈ dictKeys d := by
  simp [dictHasKey]

theorem dictGet_none_iff (d : PyDict) (k : String) :
    dictGet d k = none ↔ ¬ k ∈ dictKeys d := by
  induction d with
  | nil => simp [dictGet, dictKeys]
  | cons p rest ih =>
    rw [dictGet_cons]
    by_cases h : (p.1 == k) = true
    · rw [if_pos h]
      have : k ∈ dictKeys (p :: rest) := by
        have : p.1 = k := by simpa using h
        simp [dictKeys, this]
      simp [this]
    · rw [if_neg h]
      have hne : ¬ p.1 = k := by simpa using h
      rw [ih]
      simp [dictKeys]
      tauto

theorem dictKeys_map_reassign (d : PyDict) (k : String) (v : Value) :
    dictKeys (List.map (fun q => if q.1 == k then (q.1, v) else q) d)
      = dictKeys d := by
  induction d with
  | nil => rfl
  | cons p rest ih =>
    by_cases hc : (p.1 == k) = true
    · simp only [List.map_cons, dictKeys, hc, if_pos] at ih ⊢
      rw [ih]
    · simp only [List.map_cons, dictKeys, hc, if_neg, Bool.false_eq_true,
        not_false_iff] at ih ⊢
      rw [ih]

theorem mem_dictKeys_insert (d : PyDict) (k : String) (v : Value) (x : String) :
    x ∈ dictKeys (dictInsert d k v) ↔ x ∈ dictKeys d ∨ x = k := by
  unfold dictInsert
  split
  · next h =>
    rw [dictKeys_map_reassign]
    have hk : k ∈ dictKeys d := (dictHasKey_iff d k).mp h
    constructor
    · exact Or.inl
    · rintro (h1 | rfl)
      · exact h1
      · exact hk
  · simp [dictKeys]

theorem dictGet_map_reassign_self (d : PyDict) (k : String) (v : Value)
    (hk : k ∈ dictKeys d) :
    dictGet (List.map (fun q => if q.1 == k then (q.1, v) else q) d) k
      = some v := by
  induction d with
  | nil => simp [dictKeys] at hk
  | cons p rest ih =>
    rw [List.map_cons, dictGet_cons]
    have hfst : ((if p.1 == k then (p.1, v) else p) : String × Value).1
        = p.1 := by
      split <;> rfl
    rw [hfst]
    by_cases hp : (p.1 == k) = true
    · rw [if_pos hp]
      simp [hp]
    · rw [if_neg hp]
      have hne : ¬ p.1 = k := by simpa using hp
      have hk2 : k ∈ dictKeys rest := by
        simp only [dictKeys, List.map_cons, List.mem_cons] at hk
        rcases hk with h1 | h1
        · exact absurd h1.symm hne
        · exact h1
      exact ih hk2

theorem dictGet_append_absent (d : PyDict) (k : String) (v : Value)
    (hk : ¬ k ∈ dictKeys d) : dictGet (d ++ [(k, v)]) k = some v := by
  unfold dictGet
  rw [List.find?_append]
  have h1 : List.find? (fun p => p.1 == k) d = none := by
    rw [List.find?_eq_none]
    intro p hp hc
    exact hk (by
      simp only [dictKeys, List.mem_map]
      exact ⟨p, hp, by simpa using hc⟩)
  rw [h1]
  simp [List.find?]

theorem dictGet_insert_self (d : PyDict) (k : String) (v : Value) :
    dictGet (dictInsert d k v) k = some v := by
  unfold dictInsert
  split
  · next h => exact dictGet_map_reassign_self d k v ((dictHasKey_iff d k).mp h)
  · next h =>
    exact dictGet_append_absent d k v
      (fun hm => h ((dictHasKey_iff d k).mpr hm))

theorem dictGet_map_reassign_ne (d : PyDict) (k : String) (v : Value)
    (x : String) (h : ¬ x = k) :
    dictGet (List.map (fun q => if q.1 == k then (q.1, v) else q) d) x
      = dictGet d x := by
  induction d with
  | nil => rfl
  | cons p rest ih =>
    rw [List.map_cons, dictGet_cons, dictGet_cons]
    have hfst : ((if p.1 == k then (p.1, v) else p) : String × Value).1
        = p.1 := by
      split <;> rfl
    rw [hfst]
    by_cases hp : (p.1 == x) = true
    · rw [if_pos hp, if_pos hp]
      have hpx : p.1 = x := by simpa using hp
      have hpk : ¬ (p.1 == k) = true := by
        simp only [beq_iff_eq, hpx]
        exact h
      rw [if_neg hpk]
    · rw [if_neg hp, if_neg hp]
      exact ih

theorem dictGet_insert_ne (d : PyDict) (k : String) (v : Value) (x : String)
    (h : ¬ x = k) : dictGet (dictInsert d k v) x = dictGet d x := by
  unfold dictInsert
  split
  · exact dictGet_map_reassign_ne d k v x h
  · rw [dictGet, List.find?_append]
    have h2 : List.find? (fun p => p.1 == x) [(k, v)] = none := by
      simp only [List.find?]
      have : ¬ (k == x) = true := by
        simpa using fun hc => h hc.symm
      simp [this]
    rw [h2]
    simp [dictGet]

theorem mem_dictKeys_remove (d : PyDict) (k x : String) :
    x ∈ dictKeys (dictRemove d k) ↔ x ∈ dictKeys d ∧ ¬ x = k := by
  unfold dictRemove dictKeys
  simp only [List.mem_map, List.mem_filter]
  constructor
  · rintro ⟨p, ⟨hp, hne⟩, rfl⟩
    refine ⟨⟨p, hp, rfl⟩, ?_⟩
    simpa using hne
  · rintro ⟨⟨p, hp, rfl⟩, hne⟩
    exact ⟨p, ⟨hp, by simpa using hne⟩, rfl⟩

theorem mem_dictKeys_update (kvs d : PyDict) (x : String) :
    x ∈ dictKeys (dictUpdate d kvs) ↔ x ∈ dictKeys d ∨ x ∈ dictKeys kvs := by
  induction kvs generalizing d with
  | nil => simp [dictUpdate, dictKeys]
  | cons p rest ih =>
    show x ∈ dictKeys (dictUpdate (dictInsert d p.1 p.2) rest) ↔ _
    rw [ih, mem_dictKeys_insert]
    simp only [dictKeys, List.map_cons, List.mem_cons]
    tauto

theorem checkReadOnly_false_ne_roTrue (ro : ROState) (k : String)
    (h : checkReadOnly ro k = false) : ro ≠ .roTrue := by
  intro hro
  rw [hro] at h
  simp [checkReadOnly] at h

theorem pyOrStr_none (b : Option String) : pyOrStr none b = b := rfl

theorem editing_of_err (body : State → State × Option Err) (st st2 : State)
    (e : Err) (hb : body { st with _last_data_saved := false } = (st2, some e)) :
    editing body st = (st2, some e) := by
  unfold editing
  dsimp only
  rw [hb]

theorem editing_of_ok_noSoe (body : State → State × Option Err) (st st2 : State)
    (hb : body { st with _last_data_saved := false } = (st2, none))
    (hs : st2._save_on_edit = false) :
    editing body st = ({ st2 with _repr_cached := false }, none) := by
  unfold editing
  dsimp only
  rw [hb]
  dsimp only
  rw [if_neg (by simp [hs])]

theorem editing_of_ok_soe (body : State → State × Option Err) (st st2 : State)
    (hb : body { st with _last_data_saved := false } = (st2, none))
    (hs : st2._save_on_edit = true) :
    editing body st = save { st2 with _repr_cached := false } true none := by
  unfold editing
  dsimp only
  rw [hb]
  dsimp only
  rw [if_pos hs]

theorem save_of_roTrue (st : State) (ju : Bool) (fp : Option String)
    (h : st._read_only = .roTrue) : save st ju fp = (st, some .roSave) := by
  unfold save
  rw [h]

theorem save_of_noFp (st : State) (ju : Bool) (fp : Option String)
    (hro : st._read_only ≠ .roTrue) (hfp : pyOrStr fp st._filepath = none) :
    save st ju fp =
      ({ st with _last_data_saved := true, _last_update := [] },
        some .noFilepathSave) := by
  unfold save
  cases hst : st._read_only with
  | roTrue => exact absurd hst hro
  | roFalse =>
    dsimp only
    rw [hfp]
  | roSet s =>
    dsimp only
    rw [hfp]

theorem save_ju_ok (st : State) (fp : Option String) (f : String)
    (hro : st._read_only ≠ .roTrue) (hfp : pyOrStr fp st._filepath = some f) :
    save st true fp =
      ({ st with
          _last_data_saved := true, _last_update := [],
          writes := st.writes ++ [(pyRstripH5 f ++ ".h5",
            st._last_update.map (fun k => (k, dictGet st._data k)))] },
        none) := by
  unfold save
  cases hst : st._read_only with
  | roTrue => exact absurd hst hro
  | roFalse =>
    dsimp only
    rw [hfp]
    rfl
  | roSet s =>
    dsimp only
    rw [hfp]
    rfl

theorem setitemBody_harr_noFile (st : State) (k : String) (h : H5Handle)
    (hro : checkReadOnly st._read_only k = false) (hfp : st._filepath = none) :
    setitemBody st k (.harr h) = (addKey st k, some .harrNoFile) := by
  unfold setitemBody
  rw [if_neg (by simp [hro])]
  dsimp only [transform_to_possible_formats]
  rw [show (addKey st k)._filepath = none from hfp]

theorem setitemBody_harr_noSoe (st : State) (k : String) (h : H5Handle)
    (fp : String) (hro : checkReadOnly st._read_only k = false)
    (hfp : st._filepath = some fp) (hs : st._save_on_edit = false) :
    setitemBody st k (.harr h) = (addKey st k, some .harrNoSaveOnEdit) := by
  unfold setitemBody
  rw [if_neg (by simp [hro])]
  dsimp only [transform_to_possible_formats]
  rw [show (addKey st k)._filepath = some fp from hfp]
  dsimp only
  rw [if_neg (by simp [show (addKey st k)._save_on_edit = false from hs])]

theorem setitemBody_harr_ok (st : State) (k : String) (h : H5Handle)
    (fp : String) (hro : checkReadOnly st._read_only k = false)
    (hfp : st._filepath = some fp) (hs : st._save_on_edit = true) :
    setitemBody st k (.harr h) =
      (setitemOkState st k (.harr (bindHandle h fp k)), none) := by
  unfold setitemBody
  rw [if_neg (by simp [hro])]
  dsimp only [transform_to_possible_formats]
  rw [show (addKey st k)._filepath = some fp from hfp]
  dsimp only
  rw [if_pos (show (addKey st k)._save_on_edit = true from hs)]
  rw [← hfp]
  rfl

theorem save_snd_data (st : State) (fp : Option String) (f : String)
    (hro : st._read_only ≠ .roTrue) (hfp : pyOrStr fp st._filepath = some f) :
    (save st true fp).2 = none ∧ ((save st true fp).1)._data = st._data := by
  rw [save_ju_ok st fp f hro hfp]
  exact ⟨rfl, rfl⟩

theorem setitem_harr_ok (st : State) (k : String) (h : H5Handle) (fp : String)
    (hro : checkReadOnly st._read_only k = false)
    (hfp : st._filepath = some fp) (hs : st._save_on_edit = true) :
    (setitem st k (.harr h)).2 = none ∧
    dictGet ((setitem st k (.harr h)).1)._data k =
      some (.harr (bindHandle h fp k)) := by
  have hro1 : checkReadOnly
      ({ st with _last_data_saved := false } : State)._read_only k = false := hro
  have hbody := setitemBody_harr_ok { st with _last_data_saved := false }
    k h fp hro1 hfp hs
  have hed := editing_of_ok_soe (fun s => setitemBody s k (.harr h)) st
    (setitemOkState { st with _last_data_saved := false } k
      (.harr (bindHandle h fp k))) hbody hs
  have hsave := save_ju_ok
    ({ setitemOkState { st with _last_data_saved := false } k
        (.harr (bindHandle h fp k)) with _repr_cached := false })
    none fp (checkReadOnly_false_ne_roTrue st._read_only k hro) hfp
  rw [show setitem st k (.harr h) = editing
      (fun s => setitemBody s k (.harr h)) st from rfl, hed, hsave]
  constructor
  · rfl
  · exact dictGet_insert_self st._data k (.harr (bindHandle h fp k))

theorem checkReadOnly_roSet_mem (S : List String) (k : String) (hk : k ∈ S) :
    checkReadOnly (.roSet S) k = true := by
  have hne : S ≠ [] := List.ne_nil_of_mem hk
  simp [checkReadOnly, hk, hne]

theorem checkReadOnly_roSet_not_mem (S : List String) (k : String)
    (hk : ¬ k ∈ S) : checkReadOnly (.roSet S) k = false := by
  simp [checkReadOnly, hk]

theorem setitemBody_locked (st : State) (k : String) (v : Value)
    (h : checkReadOnly st._read_only k = true) :
    setitemBody st k v = (st, some (.roAttr k)) := by
  unfold setitemBody
  rw [if_pos h]

theorem popBody_locked (st : State) (k : String)
    (h : checkReadOnly st._read_only k = true) :
    popBody st k = (st, some (.roAttr k)) := by
  unfold popBody
  rw [if_pos h]

theorem setitem_locked (st : State) (k : String) (v : Value)
    (h : checkReadOnly st._read_only k = true) :
    setitem st k v = ({ st with _last_data_saved := false },
      some (.roAttr k)) :=
  editing_of_err (fun s => setitemBody s k v) st _ _
    (setitemBody_locked { st with _last_data_saved := false } k v h)

theorem pop_locked (st : State) (k : String)
    (h : checkReadOnly st._read_only k = true) :
    pop st k = ({ st with _last_data_saved := false }, some (.roAttr k)) :=
  editing_of_err (fun s => popBody s k) st _ _
    (popBody_locked { st with _last_data_saved := false } k h)

theorem setitemBody_plain_ok (st : State) (k : String) (v : Value)
    (hro : checkReadOnly st._read_only k = false)
    (hv : Value.isHarr v = false) :
    setitemBody st k v = (setitemOkState st k v, none) := by
  unfold setitemBody
  rw [if_neg (by simp [hro])]
  dsimp only [transform_to_possible_formats]
  cases v with
  | prim n => rfl
  | vdict d => rfl
  | harr hh => simp [Value.isHarr] at hv

theorem setitem_plain_ok_noSoe (st : State) (k : String) (v : Value)
    (hro : checkReadOnly st._read_only k = false)
    (hv : Value.isHarr v = false) (hs : st._save_on_edit = false) :
    setitem st k v =
      ({ setitemOkState { st with _last_data_saved := false } k v with
          _repr_cached := false }, none) :=
  editing_of_ok_noSoe (fun s => setitemBody s k v) st
    (setitemOkState { st with _last_data_saved := false } k v)
    (setitemBody_plain_ok { st with _last_data_saved := false } k v hro hv) hs

theorem updateLoop_locked_after (pre : PyDict) (st : State) (acc : PyDict)
    (k : String) (v : Value) (post : PyDict)
    (hpre : ∀ p ∈ pre, checkReadOnly st._read_only p.1 = false)
    (hk : checkReadOnly st._read_only k = true) :
    updateLoop st acc (pre ++ (k, v) :: post) =
      ((pre.map Prod.fst).foldl addKey st, some (.roAttr k)) := by
  induction pre generalizing st acc with
  | nil =>
    show updateLoop st acc ((k, v) :: post) = _
    unfold updateLoop
    rw [if_pos hk]
    rfl
  | cons p rest ih =>
    obtain ⟨k1, v1⟩ := p
    show updateLoop st acc ((k1, v1) :: (rest ++ (k, v) :: post)) = _
    unfold updateLoop
    rw [if_neg (by simp [hpre (k1, v1) (List.mem_cons_self _ _)])]
    exact ih (addKey st k1) _
      (fun p hp => hpre p (List.mem_cons_of_mem _ hp)) hk

theorem update_locked (st : State) (pre : PyDict) (k : String) (v : Value)
    (post : PyDict)
    (hpre : ∀ p ∈ pre, checkReadOnly st._read_only p.1 = false)
    (hk : checkReadOnly st._read_only k = true) :
    update st (pre ++ (k, v) :: post) =
      ((pre.map Prod.fst).foldl addKey { st with _last_data_saved := false },
        some (.roAttr k)) :=
  editing_of_err (fun s => updateLoop s [] (pre ++ (k, v) :: post)) st _ _
    (updateLoop_locked_after pre { st with _last_data_saved := false } []
      k v post hpre hk)

theorem foldl_addKey_data (ks : List String) (st : State) :
    (ks.foldl addKey st)._data = st._data := by
  induction ks generalizing st with
  | nil => rfl
  | cons k1 rest ih => exact (ih (addKey st k1)).trans rfl

/-- C2 amended: on a container partially locked with set S, an item or
attribute set and a delete/pop targeting a key in S fail with the read-only
error and leave the whole state unchanged except the save_clean flag; a bulk
update naming a key in S fails with the read-only error and leaves entries
unchanged, but the keys listed before the first locked key are recorded in
known_keys and dirty_keys; an item set of a key outside S with an ordinary
value and auto-save off succeeds. -/
theorem c2_amended (st : State) (S : List String) (k : String) (v : Value)
    (hro : st._read_only = .roSet S) (hk : k ∈ S) :
    (setitem st k v = ({ st with _last_data_saved := false },
        some (.roAttr k))) ∧
    (pop st k = ({ st with _last_data_saved := false }, some (.roAttr k))) ∧
    (∀ pre post v2, (∀ p ∈ pre, ¬ p.1 ∈ S) →
      update st (pre ++ (k, v2) :: post) =
        ((pre.map Prod.fst).foldl addKey
            { st with _last_data_saved := false },
          some (.roAttr k)) ∧
      ((update st (pre ++ (k, v2) :: post)).1)._data = st._data) ∧
    (∀ k2 v2, ¬ k2 ∈ S → Value.isHarr v2 = false →
      st._save_on_edit = false → (setitem st k2 v2).2 = none) := by
  have hkT : checkReadOnly st._read_only k = true := by
    rw [hro]
    exact checkReadOnly_roSet_mem S k hk
  refine ⟨setitem_locked st k v hkT, pop_locked st k hkT, ?_, ?_⟩
  · intro pre post v2 hpre
    have hpre2 : ∀ p ∈ pre, checkReadOnly st._read_only p.1 = false := by
      intro p hp
      rw [hro]
      exact checkReadOnly_roSet_not_mem S p.1 (hpre p hp)
    have h1 := update_locked st pre k v2 post hpre2 hkT
    refine ⟨h1, ?_⟩
    rw [h1]
    exact foldl_addKey_data _ _
  · intro k2 v2 hk2 hv2 hs
    rw [setitem_plain_ok_noSoe st k2 v2
      (by rw [hro]; exact checkReadOnly_roSet_not_mem S k2 hk2) hv2 hs]

theorem c2_amended_witness :
    c2State._read_only = .roSet ["y"] ∧ "y" ∈ ["y"] ∧
    (setitem c2State "y" (.prim 0) =
        ({ c2State with _last_data_saved := false }, some (.roAttr "y"))) ∧
    ((update c2State ([("x", .prim 3)] ++ [("y", .prim 4)])).1)._data
      = c2State._data ∧
    (setitem c2State "z" (.prim 5)).2 = none := by
  have h := c2_amended c2State ["y"] "y" (.prim 0) rfl (by decide)
  refine ⟨rfl, by decide, h.1, ?_, ?_⟩
  · exact (h.2.2.1 [("x", .prim 3)] [] (.prim 4)
      (by
        intro p hp
        simp at hp
        rw [hp]
        decide)).2
  · exact h.2.2.2 "z" (.prim 5) (by decide) rfl rfl

/-- C7 amended: for an item or attribute set whose value is an array handle
and whose key passes the read-only check, the set fails with the no-file
configuration error when no file path is bound, fails with the
no-save-on-edit configuration error when a path is bound but auto-save is
off, and succeeds when both hold, in which case the value stored under the
key is the handle already bound to (file path, key). -/
theorem c7_amended (st : State) (k : String) (h : H5Handle)
    (hro : checkReadOnly st._read_only k = false) :
    (st._filepath = none →
      setitem st k (.harr h) =
        (addKey { st with _last_data_saved := false } k, some .harrNoFile)) ∧
    (∀ fp, st._filepath = some fp → st._save_on_edit = false →
      setitem st k (.harr h) =
        (addKey { st with _last_data_saved := false } k,
          some .harrNoSaveOnEdit)) ∧
    (∀ fp, st._filepath = some fp → st._save_on_edit = true →
      (setitem st k (.harr h)).2 = none ∧
      dictGet ((setitem st k (.harr h)).1)._data k =
        some (.harr (bindHandle h fp k))) := by
  have hro1 : checkReadOnly
      ({ st with _last_data_saved := false } : State)._read_only k = false := hro
  refine ⟨?_, ?_, ?_⟩
  · intro hfp
    exact editing_of_err _ st _ _
      (setitemBody_harr_noFile { st with _last_data_saved := false } k h hro1 hfp)
  · intro fp hfp hs
    exact editing_of_err _ st _ _
      (setitemBody_harr_noSoe { st with _last_data_saved := false } k h fp
        hro1 hfp hs)
  · intro fp hfp hs
    exact setitem_harr_ok st k h fp hro hfp hs

theorem c7_amended_witness :
    checkReadOnly c7Start._read_only "x" = false ∧
    c7Start._filepath = some "f.h5" ∧ c7Start._save_on_edit = true ∧
    ((setitem c7Start "x" (.harr h0)).2 = none ∧
      dictGet ((setitem c7Start "x" (.harr h0)).1)._data "x" =
        some (.harr (bindHandle h0 "f.h5" "x"))) :=
  ⟨rfl, rfl, rfl,
    (c7_amended c7Start "x" h0 rfl).2.2 "f.h5" rfl rfl⟩

theorem updateLoop_lds (l : PyDict) (st : State) (acc : PyDict) :
    ((updateLoop st acc l).1)._last_data_saved = st._last_data_saved := by
  induction l generalizing st acc with
  | nil => rfl
  | cons p rest ih =>
    obtain ⟨k, v⟩ := p
    show ((if checkReadOnly st._read_only k then
        (st, some (.roAttr k))
      else updateLoop (addKey st k)
        (acc ++ [(k, transform_to_possible_formats v)])
          rest).1)._last_data_saved = st._last_data_saved
    by_cases h : checkReadOnly st._read_only k = true
    · rw [if_pos h]
    · rw [if_neg h]
      exact ih (addKey st k) _

theorem popBody_lds (st : State) (k : String) :
    ((popBody st k).1)._last_data_saved = st._last_data_saved := by
  unfold popBody
  split
  · rfl
  · split
    · dsimp only
      split
      · rfl
      · rfl
    · rfl

theorem setitemBody_lds (st : State) (k : String) (v : Value) :
    ((setitemBody st k v).1)._last_data_saved = st._last_data_saved := by
  unfold setitemBody
  split
  · rfl
  · dsimp only
    split
    · split
      · rfl
      · split
        · rfl
        · rfl
    · rfl

theorem editing_lds_noSoe (body : State → State × Option Err) (st : State)
    (hpres : ∀ s, ((body s).1)._last_data_saved = s._last_data_saved)
    (hcfg : ∀ s, sameCfg s ((body s).1))
    (hs : st._save_on_edit = false) :
    ((editing body st).1)._last_data_saved = false := by
  unfold editing
  dsimp only
  cases hb : body { st with _last_data_saved := false } with
  | mk st2 oe =>
    have hl : st2._last_data_saved = false := by
      have h2 := hpres { st with _last_data_saved := false }
      rw [hb] at h2
      exact h2
    have hsoe2 : st2._save_on_edit = false := by
      have h2 := (hcfg { st with _last_data_saved := false }).2.1
      rw [hb] at h2
      exact h2.trans hs
    cases oe with
    | some e => exact hl
    | none =>
      dsimp only
      rw [if_neg (by simp [hsoe2])]
      exact hl

theorem lock_data_lds (st : State) (ks : Option (List String)) :
    ((lock_data st ks).1)._last_data_saved = st._last_data_saved := by
  unfold lock_data
  split
  · rfl
  · rfl

theorem clean_lock_lds (st : State) (ks : Option (List String)) :
    ((clean_lock st ks).1)._last_data_saved = st._last_data_saved := by
  unfold clean_lock
  split
  · rfl
  · split
    · rfl
    · split
      · rfl
  · rfl

theorem init_ok_lds (fs : String → Option PyDict) (fp : Option String)
    (soe : Bool) (ro : ROArg) (ov : Option Bool) (st : State)
    (h : init fs fp soe ro ov = .ok st) : st._last_data_saved = false := by
  unfold init at h
  cases fp with
  | none =>
    cases h
    rfl
  | some fp0 =>
    dsimp only at h
    split at h
    · simp at h
    · split at h
      · split at h
        · simp at h
        · split at h
          · injection h with h2
            subst h2
            split
            · rfl
            · rfl
          · injection h with h2
            subst h2
            split
            · rfl
            · rfl
      · split at h
        · simp at h
        · injection h with h2
          subst h2
          rfl

theorem save_lds (st : State) (ju : Bool) (fp : Option String)
    (hro : st._read_only ≠ .roTrue) :
    ((save st ju fp).1)._last_data_saved = true := by
  unfold save
  cases hst : st._read_only with
  | roTrue => exact absurd hst hro
  | roFalse =>
    dsimp only
    split
    · rfl
    · split
      · rfl
      · rfl
  | roSet s =>
    dsimp only
    split
    · rfl
    · split
      · rfl
      · rfl

/-- C8 amended: the save_clean flag is false after construction; a save call
past the read-only check sets it true even when the save then fails; with
auto-save off, any editing-wrapped mutation attempt (bulk update, item or
attribute set, pop or delete, successful or not) leaves it false; a delattr
of a key present in entries behaves the same, a delattr of an absent key
leaves it unchanged; and all other operations except save leave it
unchanged. -/
theorem c8_amended :
    (∀ fs fp soe ro ov st, init fs fp soe ro ov = .ok st →
      st._last_data_saved = false) ∧
    (∀ st ju fp, st._read_only ≠ .roTrue →
      ((save st ju fp).1)._last_data_saved = true) ∧
    (∀ (st : State) (op : Op), op.isMut = true → (∀ k, op ≠ .opDelAttr k) →
      st._save_on_edit = false →
      ((step st op).1)._last_data_saved = false) ∧
    (∀ (st : State) k, st._save_on_edit = false →
      dictHasKey st._data k = true →
      ((step st (.opDelAttr k)).1)._last_data_saved = false) ∧
    (∀ (st : State) k, dictHasKey st._data k = false →
      ((step st (.opDelAttr k)).1)._last_data_saved = st._last_data_saved) ∧
    (∀ (st : State) (op : Op), op.isMut = false →
      (∀ ju fp, op ≠ .opSave ju fp) →
      ((step st op).1)._last_data_saved = st._last_data_saved) := by
  refine ⟨init_ok_lds, save_lds, ?_, ?_, ?_, ?_⟩
  · intro st op hm hda hs
    cases op with
    | opUpdate kwds =>
      exact editing_lds_noSoe _ st (fun s => updateLoop_lds kwds s [])
        (fun s => updateLoop_sameCfg kwds s []) hs
    | opSetItem k v =>
      exact editing_lds_noSoe _ st (fun s => setitemBody_lds s k v)
        (fun s => setitemBody_sameCfg s k v) hs
    | opSetAttr k v =>
      exact editing_lds_noSoe _ st (fun s => setitemBody_lds s k v)
        (fun s => setitemBody_sameCfg s k v) hs
    | opPop k =>
      exact editing_lds_noSoe _ st (fun s => popBody_lds s k)
        (fun s => popBody_sameCfg s k) hs
    | opDelItem k =>
      exact editing_lds_noSoe _ st (fun s => popBody_lds s k)
        (fun s => popBody_sameCfg s k) hs
    | opDelAttr k => exact absurd rfl (hda k)
    | opLock ks => simp [Op.isMut] at hm
    | opCleanLock ks => simp [Op.isMut] at hm
    | opSave ju fp => simp [Op.isMut] at hm
    | opGet k => simp [Op.isMut] at hm
    | opGetItemT keys => simp [Op.isMut] at hm
    | opRepr => simp [Op.isMut] at hm
  · intro st k hs hk
    show ((delattrOp st k).1)._last_data_saved = false
    unfold delattrOp
    rw [if_pos hk]
    exact editing_lds_noSoe _ st (fun s => popBody_lds s k)
      (fun s => popBody_sameCfg s k) hs
  · intro st k hk
    show ((delattrOp st k).1)._last_data_saved = st._last_data_saved
    unfold delattrOp
    rw [if_neg (by simp [hk])]
  · intro st op hm hsv
    cases op with
    | opUpdate kwds => simp [Op.isMut] at hm
    | opSetItem k v => simp [Op.isMut] at hm
    | opSetAttr k v => simp [Op.isMut] at hm
    | opPop k => simp [Op.isMut] at hm
    | opDelItem k => simp [Op.isMut] at hm
    | opDelAttr k => simp [Op.isMut] at hm
    | opLock ks => exact lock_data_lds st ks
    | opCleanLock ks => exact clean_lock_lds st ks
    | opSave ju fp => exact absurd rfl (hsv ju fp)
    | opGet k => rfl
    | opGetItemT keys => rfl
    | opRepr => rfl

theorem c8_amended_witness :
    init fs0 none false .roNone none = .ok freshState ∧
    freshState._last_data_saved = false ∧
    freshState._read_only ≠ .roTrue ∧
    ((save freshState false (some "p")).1)._last_data_saved = true ∧
    freshState._save_on_edit = false ∧
    ((step freshState (.opSetItem "a" (.prim 1))).1)._last_data_saved
      = false := by
  refine ⟨rfl, c8_amended.1 fs0 none false .roNone none freshState rfl,
    ?_, c8_amended.2.1 freshState false (some "p") ?_, rfl,
    c8_amended.2.2.1 freshState (.opSetItem "a" (.prim 1)) rfl
      (fun k => by simp) rfl⟩
  · intro hc
    exact absurd hc (by decide)
  · intro hc
    exact absurd hc (by decide)

theorem pyOrStr_some_ne (fp : String) (b : Option String) (h : ¬ fp = "") :
    pyOrStr (some fp) b = some fp := by
  show (if (fp == "") = true then b else some fp) = some fp
  rw [if_neg (by simp [h])]

theorem lock_data_fields (st : State) (ks : Option (List String)) :
    ((lock_data st ks).1)._data = st._data ∧
    ((lock_data st ks).1)._attrs = st._attrs ∧
    ((lock_data st ks).1)._last_update = st._last_update ∧
    ((lock_data st ks).1)._save_on_edit = st._save_on_edit ∧
    ((lock_data st ks).1)._filepath = st._filepath := by
  unfold lock_data
  split
  · exact ⟨rfl, rfl, rfl, rfl, rfl⟩
  · exact ⟨rfl, rfl, rfl, rfl, rfl⟩

theorem clean_lock_fields (st : State) (ks : Option (List String)) :
    ((clean_lock st ks).1)._data = st._data ∧
    ((clean_lock st ks).1)._attrs = st._attrs ∧
    ((clean_lock st ks).1)._last_update = st._last_update ∧
    ((clean_lock st ks).1)._save_on_edit = st._save_on_edit ∧
    ((clean_lock st ks).1)._filepath = st._filepath := by
  unfold clean_lock
  split
  · exact ⟨rfl, rfl, rfl, rfl, rfl⟩
  · split
    · exact ⟨rfl, rfl, rfl, rfl, rfl⟩
    · split
      · exact ⟨rfl, rfl, rfl, rfl, rfl⟩
  · exact ⟨rfl, rfl, rfl, rfl, rfl⟩

theorem step_soe (st : State) (op : Op) :
    ((step st op).1)._save_on_edit = st._save_on_edit := by
  cases op with
  | opUpdate kwds =>
    exact (editing_sameCfg _ st (fun s => updateLoop_sameCfg kwds s [])).2.1
  | opSetItem k v =>
    exact (editing_sameCfg _ st (fun s => setitemBody_sameCfg s k v)).2.1
  | opSetAttr k v =>
    exact (editing_sameCfg _ st (fun s => setitemBody_sameCfg s k v)).2.1
  | opPop k =>
    exact (editing_sameCfg _ st (fun s => popBody_sameCfg s k)).2.1
  | opDelItem k =>
    exact (editing_sameCfg _ st (fun s => popBody_sameCfg s k)).2.1
  | opDelAttr k => exact (delattrOp_sameCfg st k).2.1
  | opLock ks => exact (lock_data_fields st ks).2.2.2.1
  | opCleanLock ks => exact (clean_lock_fields st ks).2.2.2.1
  | opSave ju fp => exact (save_sameCfg st ju fp).2.1
  | opGet k => rfl
  | opGetItemT keys => rfl
  | opRepr => rfl

theorem step_mut_sameCfg (st : State) (op : Op) (hm : op.isMut = true) :
    sameCfg st ((step st op).1) := by
  cases op with
  | opUpdate kwds =>
    exact editing_sameCfg _ st (fun s => updateLoop_sameCfg kwds s [])
  | opSetItem k v =>
    exact editing_sameCfg _ st (fun s => setitemBody_sameCfg s k v)
  | opSetAttr k v =>
    exact editing_sameCfg _ st (fun s => setitemBody_sameCfg s k v)
  | opPop k => exact editing_sameCfg _ st (fun s => popBody_sameCfg s k)
  | opDelItem k => exact editing_sameCfg _ st (fun s => popBody_sameCfg s k)
  | opDelAttr k => exact delattrOp_sameCfg st k
  | opLock ks => simp [Op.isMut] at hm
  | opCleanLock ks => simp [Op.isMut] at hm
  | opSave ju fp => simp [Op.isMut] at hm
  | opGet k => simp [Op.isMut] at hm
  | opGetItemT keys => simp [Op.isMut] at hm
  | opRepr => simp [Op.isMut] at hm

theorem setitemBody_ok_lu (st : State) (k : String) (v : Value) (st2 : State)
    (hb : setitemBody st k v = (st2, none)) :
    st2._last_update = setInsert st._last_update k := by
  unfold setitemBody at hb
  split at hb
  · simp at hb
  · dsimp only at hb
    split at hb
    · split at hb
      · simp at hb
      · split at hb
        · injection hb with h1 h2
          rw [← h1]
          rfl
        · simp at hb
    · injection hb with h1 h2
      rw [← h1]
      rfl

theorem popBody_ok_lu (st : State) (k : String) (st2 : State)
    (hb : popBody st k = (st2, none)) :
    st2._last_update = setInsert st._last_update k := by
  unfold popBody at hb
  split at hb
  · simp at hb
  · split at hb
    · dsimp only at hb
      split at hb
      · injection hb with h1 h2
        rw [← h1]
      · simp at hb
    · simp at hb

theorem updateLoop_ok_lu (l : PyDict) (st : State) (acc : PyDict) (st2 : State)
    (hb : updateLoop st acc l = (st2, none)) :
    ∀ x, x ∈ st2._last_update ↔
      x ∈ st._last_update ∨ x ∈ l.map Prod.fst := by
  induction l generalizing st acc with
  | nil =>
    intro x
    have h1 : ({ st with _data := dictUpdate st._data acc } : State) = st2 := by
      injection hb
    rw [← h1]
    simp
  | cons p rest ih =>
    obtain ⟨k, v⟩ := p
    intro x
    rw [show updateLoop st acc ((k, v) :: rest) =
        (if checkReadOnly st._read_only k then (st, some (.roAttr k))
         else updateLoop (addKey st k)
           (acc ++ [(k, transform_to_possible_formats v)]) rest) from rfl]
      at hb
    split at hb
    · simp at hb
    · have h2 := ih (addKey st k) _ hb x
      rw [h2]
      have h3 : (addKey st k)._last_update = setInsert st._last_update k := rfl
      rw [h3, mem_setInsert]
      simp only [List.map_cons, List.mem_cons]
      tauto

theorem editing_ok_of_snd_none (body : State → State × Option Err) (st : State)
    (hcfg : ∀ s, sameCfg s ((body s).1)) (hs : st._save_on_edit = false)
    (h : (editing body st).2 = none) :
    ∃ st2, body { st with _last_data_saved := false } = (st2, none) ∧
      editing body st = ({ st2 with _repr_cached := false }, none) := by
  cases hb : body { st with _last_data_saved := false } with
  | mk st2 oe =>
    cases oe with
    | some e =>
      rw [editing_of_err body st st2 e hb] at h
      simp at h
    | none =>
      have hsoe2 : st2._save_on_edit = false := by
        have h2 := (hcfg { st with _last_data_saved := false }).2.1
        rw [hb] at h2
        exact h2.trans hs
      exact ⟨st2, rfl, editing_of_ok_noSoe body st st2 hb hsoe2⟩

theorem step_mut_ok_lu (st : State) (op : Op) (hm : op.isMut = true)
    (hs : st._save_on_edit = false) (h : (step st op).2 = none) :
    ∀ x, x ∈ ((step st op).1)._last_update ↔
      x ∈ st._last_update ∨ x ∈ op.keysTouched := by
  cases op with
  | opUpdate kwds =>
    obtain ⟨st2, hb, he⟩ := editing_ok_of_snd_none _ st
      (fun s => updateLoop_sameCfg kwds s []) hs h
    intro x
    rw [show step st (.opUpdate kwds) =
      editing (fun s => updateLoop s [] kwds) st from rfl, he]
    exact updateLoop_ok_lu kwds _ [] st2 hb x
  | opSetItem k v =>
    obtain ⟨st2, hb, he⟩ := editing_ok_of_snd_none _ st
      (fun s => setitemBody_sameCfg s k v) hs h
    intro x
    rw [show step st (.opSetItem k v) =
      editing (fun s => setitemBody s k v) st from rfl, he]
    show x ∈ st2._last_update ↔ _
    rw [setitemBody_ok_lu _ k v st2 hb, mem_setInsert]
    simp [Op.keysTouched]
  | opSetAttr k v =>
    obtain ⟨st2, hb, he⟩ := editing_ok_of_snd_none _ st
      (fun s => setitemBody_sameCfg s k v) hs h
    intro x
    rw [show step st (.opSetAttr k v) =
      editing (fun s => setitemBody s k v) st from rfl, he]
    show x ∈ st2._last_update ↔ _
    rw [setitemBody_ok_lu _ k v st2 hb, mem_setInsert]
    simp [Op.keysTouched]
  | opPop k =>
    obtain ⟨st2, hb, he⟩ := editing_ok_of_snd_none _ st
      (fun s => popBody_sameCfg s k) hs h
    intro x
    rw [show step st (.opPop k) =
      editing (fun s => popBody s k) st from rfl, he]
    show x ∈ st2._last_update ↔ _
    rw [popBody_ok_lu _ k st2 hb, mem_setInsert]
    simp [Op.keysTouched]
  | opDelItem k =>
    obtain ⟨st2, hb, he⟩ := editing_ok_of_snd_none _ st
      (fun s => popBody_sameCfg s k) hs h
    intro x
    rw [show step st (.opDelItem k) =
      editing (fun s => popBody s k) st from rfl, he]
    show x ∈ st2._last_update ↔ _
    rw [popBody_ok_lu _ k st2 hb, mem_setInsert]
    simp [Op.keysTouched]
  | opDelAttr k =>
    have hh : (delattrOp st k).2 = none := h
    show ∀ x, x ∈ ((delattrOp st k).1)._last_update ↔ _
    unfold delattrOp at hh ⊢
    split at hh
    · next hin =>
      rw [if_pos hin]
      obtain ⟨st2, hb, he⟩ := editing_ok_of_snd_none _ st
        (fun s => popBody_sameCfg s k) hs hh
      intro x
      rw [show pop st k = editing (fun s => popBody s k) st from rfl, he]
      show x ∈ st2._last_update ↔ _
      rw [popBody_ok_lu _ k st2 hb, mem_setInsert]
      simp [Op.keysTouched]
    · simp at hh
  | opLock ks => simp [Op.isMut] at hm
  | opCleanLock ks => simp [Op.isMut] at hm
  | opSave ju fp => simp [Op.isMut] at hm
  | opGet k => simp [Op.isMut] at hm
  | opGetItemT keys => simp [Op.isMut] at hm
  | opRepr => simp [Op.isMut] at hm

theorem okRunB_cons (st : State) (op : Op) (rest : List Op)
    (h : okRunB st (op :: rest) = true) :
    op.isMut = true ∧ (step st op).2 = none ∧
      okRunB (step st op).1 rest = true := by
  unfold okRunB at h
  simp only [Bool.and_eq_true] at h
  exact ⟨h.1.1, Option.isNone_iff_eq_none.mp h.1.2, h.2⟩

theorem run_lu_touched (ops : List Op) (st : State)
    (hs : st._save_on_edit = false) (hok : okRunB st ops = true) :
    ∀ x, x ∈ (run st ops)._last_update ↔
      x ∈ st._last_update ∨ x ∈ touchedKeys ops := by
  induction ops generalizing st with
  | nil =>
    intro x
    simp [run, touchedKeys]
  | cons op rest ih =>
    obtain ⟨h1, h2, h3⟩ := okRunB_cons st op rest hok
    intro x
    have hs2 : ((step st op).1)._save_on_edit = false :=
      (step_soe st op).trans hs
    have h4 := ih (step st op).1 hs2 h3 x
    show x ∈ (run (step st op).1 rest)._last_update ↔ _
    rw [h4, step_mut_ok_lu st op h1 hs h2 x]
    have h5 : touchedKeys (op :: rest) = op.keysTouched ++ touchedKeys rest := by
      simp [touchedKeys]
    rw [h5]
    simp only [List.mem_append]
    tauto

theorem run_mut_sameCfg (ops : List Op) (st : State)
    (hok : okRunB st ops = true) : sameCfg st (run st ops) := by
  induction ops generalizing st with
  | nil => exact sameCfg_refl st
  | cons op rest ih =>
    obtain ⟨h1, h2, h3⟩ := okRunB_cons st op rest hok
    exact sameCfg_trans (step_mut_sameCfg st op h1) (ih (step st op).1 h3)

/-- C3: starting right after a save (empty dirty set) with auto-save off,
after any sequence of successful mutations a save with just_update true hands
the codec a payload whose key set is exactly the set of keys the mutations
named (however often each was touched), where a key still present maps to its
current value in entries and a key absent from entries (deleted) maps to the
None sentinel. -/
theorem c3_incremental_save_payload (st : State) (ops : List Op) (fp : String)
    (h0 : st._last_update = []) (hs : st._save_on_edit = false)
    (hro : st._read_only ≠ .roTrue) (hfp : ¬ fp = "")
    (hok : okRunB st ops = true) :
    (save (run st ops) true (some fp)).2 = none ∧
    ∃ payload,
      ((save (run st ops) true (some fp)).1).writes =
        (run st ops).writes ++ [(pyRstripH5 fp ++ ".h5", payload)] ∧
      (∀ x, x ∈ payload.map Prod.fst ↔ x ∈ touchedKeys ops) ∧
      (∀ p ∈ payload,
        (dictHasKey (run st ops)._data p.1 = true →
          p.2 = dictGet (run st ops)._data p.1) ∧
        (dictHasKey (run st ops)._data p.1 = false → p.2 = none)) := by
  have hro2 : (run st ops)._read_only ≠ .roTrue := by
    rw [(run_mut_sameCfg ops st hok).1]
    exact hro
  have hsv := save_ju_ok (run st ops) (some fp) fp hro2
    (pyOrStr_some_ne fp (run st ops)._filepath hfp)
  rw [hsv]
  refine ⟨rfl, (run st ops)._last_update.map
    (fun k => (k, dictGet (run st ops)._data k)), rfl, ?_, ?_⟩
  · intro x
    have h1 : ((run st ops)._last_update.map
        (fun k => (k, dictGet (run st ops)._data k))).map Prod.fst
        = (run st ops)._last_update := by
      rw [List.map_map]
      exact List.map_id _
    rw [h1, run_lu_touched ops st hs hok x, h0]
    simp
  · intro p hp
    simp only [List.mem_map] at hp
    obtain ⟨k, hk, rfl⟩ := hp
    constructor
    · intro _
      rfl
    · intro hnk
      show dictGet (run st ops)._data k = none
      rw [dictGet_none_iff]
      intro hm
      rw [(dictHasKey_iff _ k).mpr hm] at hnk
      simp at hnk

theorem c3_incremental_save_payload_witness :
    freshState._last_update = [] ∧ freshState._save_on_edit = false ∧
    freshState._read_only ≠ .roTrue ∧ ¬ "p" = "" ∧
    okRunB freshState [.opSetItem "a" (.prim 1)] = true ∧
    ((save (run freshState [.opSetItem "a" (.prim 1)]) true (some "p")).2
        = none ∧
      ∃ payload,
        ((save (run freshState [.opSetItem "a" (.prim 1)]) true
            (some "p")).1).writes =
          (run freshState [.opSetItem "a" (.prim 1)]).writes ++
            [(pyRstripH5 "p" ++ ".h5", payload)] ∧
        (∀ x, x ∈ payload.map Prod.fst ↔
          x ∈ touchedKeys [.opSetItem "a" (.prim 1)]) ∧
        (∀ p ∈ payload,
          (dictHasKey (run freshState [.opSetItem "a" (.prim 1)])._data p.1
              = true →
            p.2 = dictGet
              (run freshState [.opSetItem "a" (.prim 1)])._data p.1) ∧
          (dictHasKey (run freshState [.opSetItem "a" (.prim 1)])._data p.1
              = false → p.2 = none))) :=
  ⟨rfl, rfl, by decide, by decide, rfl,
    c3_incremental_save_payload freshState [.opSetItem "a" (.prim 1)] "p"
      rfl rfl (by decide) (by decide) rfl⟩

theorem mem_foldl_setInsert (ks : List String) (s : List String) (x : String) :
    x ∈ ks.foldl setInsert s ↔ x ∈ s ∨ x ∈ ks := by
  induction ks generalizing s with
  | nil => simp
  | cons k rest ih =>
    show x ∈ rest.foldl setInsert (setInsert s k) ↔ _
    rw [ih, mem_setInsert]
    simp only [List.mem_cons]
    tauto

theorem foldl_setInsert_nodup (ks s : List String) (h : s.Nodup) :
    (ks.foldl setInsert s).Nodup := by
  induction ks generalizing s with
  | nil => exact h
  | cons k rest ih => exact ih _ (setInsert_nodup s k h)

theorem attrsInv_of_fields (st st2 : State) (hA : st2._attrs = st._attrs)
    (hD : st2._data = st._data) (h : attrsInv st) : attrsInv st2 := by
  constructor
  · rw [hA]
    exact h.1
  · intro k
    rw [hA, hD]
    exact h.2 k

theorem attrsInv_nil (st : State) (h1 : st._attrs = [])
    (h2 : st._data = []) : attrsInv st := by
  constructor
  · rw [h1]
    exact List.nodup_nil
  · intro k
    rw [h1, h2]
    simp [dictKeys]

theorem updateInternal_attrsInv (st : State) (kvs : PyDict)
    (h : attrsInv st) : attrsInv (updateInternal st kvs) := by
  constructor
  · exact foldl_setInsert_nodup _ _ h.1
  · intro k
    show k ∈ (dictKeys kvs).foldl setInsert st._attrs ↔
      k ∈ dictKeys (dictUpdate st._data kvs)
    rw [mem_foldl_setInsert, mem_dictKeys_update, h.2 k]

theorem init_attrsInv (fs : String → Option PyDict) (fp : Option String)
    (soe : Bool) (ro : ROArg) (ov : Option Bool) (st : State)
    (h : init fs fp soe ro ov = .ok st) : attrsInv st := by
  unfold init at h
  cases fp with
  | none =>
    cases h
    exact attrsInv_nil _ rfl rfl
  | some fp0 =>
    dsimp only at h
    split at h
    · simp at h
    · split at h
      · split at h
        · simp at h
        · split at h
          · injection h with h2
            subst h2
            apply attrsInv_of_fields _ _ rfl rfl
            split
            · exact updateInternal_attrsInv _ _ (attrsInv_nil _ rfl rfl)
            · exact attrsInv_nil _ rfl rfl
          · injection h with h2
            subst h2
            split
            · exact updateInternal_attrsInv _ _ (attrsInv_nil _ rfl rfl)
            · exact attrsInv_nil _ rfl rfl
      · split at h
        · simp at h
        · injection h with h2
          subst h2
          exact attrsInv_nil _ rfl rfl

theorem save_data_attrs (st : State) (ju : Bool) (fp : Option String) :
    ((save st ju fp).1)._data = st._data ∧
    ((save st ju fp).1)._attrs = st._attrs := by
  unfold save
  split
  · exact ⟨rfl, rfl⟩
  · dsimp only
    split
    · exact ⟨rfl, rfl⟩
    · split
      · exact ⟨rfl, rfl⟩
      · exact ⟨rfl, rfl⟩

theorem editing_attrsInv_of_body (body : State → State × Option Err)
    (st : State)
    (h1 : attrsInv ((body { st with _last_data_saved := false }).1)) :
    attrsInv ((editing body st).1) := by
  unfold editing
  dsimp only
  cases hb : body { st with _last_data_saved := false } with
  | mk st2 oe =>
    rw [hb] at h1
    cases oe with
    | some e => exact h1
    | none =>
      dsimp only
      by_cases hs : st2._save_on_edit = true
      · rw [if_pos hs]
        have h3 := save_data_attrs { st2 with _repr_cached := false } true none
        exact attrsInv_of_fields { st2 with _repr_cached := false } _ h3.2 h3.1
          (attrsInv_of_fields st2 _ rfl rfl h1)
      · rw [if_neg hs]
        exact attrsInv_of_fields st2 _ rfl rfl h1

theorem editing_snd_none_body_ok (body : State → State × Option Err)
    (st : State) (h : (editing body st).2 = none) :
    (body { st with _last_data_saved := false }).2 = none := by
  unfold editing at h
  dsimp only at h
  cases hb : body { st with _last_data_saved := false } with
  | mk st2 oe =>
    rw [hb] at h
    cases oe with
    | some e => simp at h
    | none => rfl

theorem editing_snd_rel (body : State → State × Option Err) (st : State) :
    (body { st with _last_data_saved := false }).2 = none ∨
    (editing body st).2 = (body { st with _last_data_saved := false }).2 := by
  cases hb : body { st with _last_data_saved := false } with
  | mk st2 oe =>
    cases oe with
    | none =>
      left
      rfl
    | some e =>
      right
      rw [editing_of_err body st st2 e hb]

theorem setitemOkState_attrsInv (st : State) (k : String) (v : Value)
    (hP : attrsInv st) : attrsInv (setitemOkState st k v) := by
  constructor
  · show (setInsert st._attrs k).Nodup
    exact setInsert_nodup _ _ hP.1
  · intro x
    show x ∈ setInsert st._attrs k ↔ x ∈ dictKeys (dictInsert st._data k v)
    rw [mem_setInsert, mem_dictKeys_insert, hP.2 x]

theorem setitemBody_attrsInv (st : State) (k : String) (v : Value)
    (hP : attrsInv st)
    (hx1 : (setitemBody st k v).2 ≠ some .harrNoFile)
    (hx2 : (setitemBody st k v).2 ≠ some .harrNoSaveOnEdit) :
    attrsInv ((setitemBody st k v).1) := by
  by_cases hro : checkReadOnly st._read_only k = true
  · rw [setitemBody_locked st k v hro]
    exact hP
  · have hro2 : checkReadOnly st._read_only k = false := by
      simp at hro
      exact hro
    cases hv : v with
    | harr hh =>
      subst hv
      cases hfp : st._filepath with
      | none =>
        rw [setitemBody_harr_noFile st k hh hro2 hfp] at hx1
        exact absurd rfl hx1
      | some fp =>
        by_cases hs : st._save_on_edit = true
        · rw [setitemBody_harr_ok st k hh fp hro2 hfp hs]
          exact setitemOkState_attrsInv st k _ hP
        · have hs2 : st._save_on_edit = false := by
            simp at hs
            exact hs
          rw [setitemBody_harr_noSoe st k hh fp hro2 hfp hs2] at hx2
          exact absurd rfl hx2
    | prim n =>
      subst hv
      rw [setitemBody_plain_ok st k (.prim n) hro2 rfl]
      exact setitemOkState_attrsInv st k _ hP
    | vdict d =>
      subst hv
      rw [setitemBody_plain_ok st k (.vdict d) hro2 rfl]
      exact setitemOkState_attrsInv st k _ hP

theorem popBody_attrsInv (st : State) (k : String) (hP : attrsInv st) :
    attrsInv ((popBody st k).1) := by
  unfold popBody
  split
  · exact hP
  · split
    · next hin =>
      dsimp only
      have hmem : k ∈ st._attrs := by simpa using hin
      have hkey : dictHasKey st._data k = true :=
        (dictHasKey_iff _ k).mpr ((hP.2 k).mp hmem)
      rw [if_pos hkey]
      constructor
      · show (st._attrs.erase k).Nodup
        exact hP.1.erase k
      · intro x
        show x ∈ st._attrs.erase k ↔ x ∈ dictKeys (dictRemove st._data k)
        rw [hP.1.mem_erase_iff, mem_dictKeys_remove, hP.2 x]
        tauto
    · exact hP

theorem updateLoop_ok_attrs (l : PyDict) (st : State) (acc : PyDict)
    (st2 : State) (hb : updateLoop st acc l = (st2, none)) :
    ∀ x, x ∈ st2._attrs ↔ x ∈ st._attrs ∨ x ∈ l.map Prod.fst := by
  induction l generalizing st acc with
  | nil =>
    intro x
    have h1 : ({ st with _data := dictUpdate st._data acc } : State) = st2 := by
      injection hb
    rw [← h1]
    simp
  | cons p rest ih =>
    obtain ⟨k, v⟩ := p
    intro x
    rw [show updateLoop st acc ((k, v) :: rest) =
        (if checkReadOnly st._read_only k then (st, some (.roAttr k))
         else updateLoop (addKey st k)
           (acc ++ [(k, transform_to_possible_formats v)]) rest) from rfl]
      at hb
    split at hb
    · simp at hb
    · have h2 := ih (addKey st k) _ hb x
      rw [h2]
      have h3 : (addKey st k)._attrs = setInsert st._attrs k := rfl
      rw [h3, mem_setInsert]
      simp only [List.map_cons, List.mem_cons]
      tauto

theorem updateLoop_ok_dataKeys (l : PyDict) (st : State) (acc : PyDict)
    (st2 : State) (hb : updateLoop st acc l = (st2, none)) :
    ∀ x, x ∈ dictKeys st2._data ↔
      x ∈ dictKeys st._data ∨ x ∈ dictKeys acc ∨ x ∈ l.map Prod.fst := by
  induction l generalizing st acc with
  | nil =>
    intro x
    have h1 : ({ st with _data := dictUpdate st._data acc } : State) = st2 := by
      injection hb
    rw [← h1]
    show x ∈ dictKeys (dictUpdate st._data acc) ↔ _
    rw [mem_dictKeys_update]
    simp
  | cons p rest ih =>
    obtain ⟨k, v⟩ := p
    intro x
    rw [show updateLoop st acc ((k, v) :: rest) =
        (if checkReadOnly st._read_only k then (st, some (.roAttr k))
         else updateLoop (addKey st k)
           (acc ++ [(k, transform_to_possible_formats v)]) rest) from rfl]
      at hb
    split at hb
    · simp at hb
    · have h2 := ih (addKey st k) _ hb x
      rw [h2]
      have h3 : (addKey st k)._data = st._data := rfl
      rw [h3]
      simp only [dictKeys, List.map_append, List.map_cons, List.map_nil,
        List.mem_append, List.mem_cons, List.mem_singleton, List.not_mem_nil,
        or_false]
      tauto

theorem updateLoop_ok_nodup (l : PyDict) (st : State) (acc : PyDict)
    (st2 : State) (hb : updateLoop st acc l = (st2, none))
    (h : st._attrs.Nodup) : st2._attrs.Nodup := by
  induction l generalizing st acc with
  | nil =>
    have h1 : ({ st with _data := dictUpdate st._data acc } : State) = st2 := by
      injection hb
    rw [← h1]
    exact h
  | cons p rest ih =>
    obtain ⟨k, v⟩ := p
    rw [show updateLoop st acc ((k, v) :: rest) =
        (if checkReadOnly st._read_only k then (st, some (.roAttr k))
         else updateLoop (addKey st k)
           (acc ++ [(k, transform_to_possible_formats v)]) rest) from rfl]
      at hb
    split at hb
    · simp at hb
    · exact ih (addKey st k) _ hb (setInsert_nodup _ _ h)

theorem update_ok_attrsInv (st : State) (kwds : PyDict) (hP : attrsInv st)
    (hok : (update st kwds).2 = none) : attrsInv ((update st kwds).1) := by
  have hb := editing_snd_none_body_ok (fun s => updateLoop s [] kwds) st hok
  dsimp only at hb
  cases hbb : updateLoop { st with _last_data_saved := false } [] kwds with
  | mk st2 oe =>
    rw [hbb] at hb
    cases oe with
    | some e => simp at hb
    | none =>
      apply editing_attrsInv_of_body
      rw [hbb]
      constructor
      · exact updateLoop_ok_nodup kwds _ [] st2 hbb hP.1
      · intro x
        rw [updateLoop_ok_attrs kwds _ [] st2 hbb x,
          updateLoop_ok_dataKeys kwds _ [] st2 hbb x]
        show x ∈ st._attrs ∨ _ ↔ x ∈ dictKeys st._data ∨ _
        rw [hP.2 x]
        simp [dictKeys]

theorem setitem_attrsInv (st : State) (k : String) (v : Value)
    (hP : attrsInv st)
    (hx1 : (setitem st k v).2 ≠ some .harrNoFile)
    (hx2 : (setitem st k v).2 ≠ some .harrNoSaveOnEdit) :
    attrsInv ((setitem st k v).1) := by
  have hP1 : attrsInv ({ st with _last_data_saved := false } : State) :=
    attrsInv_of_fields st _ rfl rfl hP
  rcases editing_snd_rel (fun s => setitemBody s k v) st with hcase | hcase
  · apply editing_attrsInv_of_body
    apply setitemBody_attrsInv _ k v hP1
    · rw [hcase]
      simp
    · rw [hcase]
      simp
  · apply editing_attrsInv_of_body
    apply setitemBody_attrsInv _ k v hP1
    · rw [← hcase]
      exact hx1
    · rw [← hcase]
      exact hx2

theorem pop_attrsInv (st : State) (k : String) (hP : attrsInv st) :
    attrsInv ((pop st k).1) :=
  editing_attrsInv_of_body (fun s => popBody s k) st
    (popBody_attrsInv _ k (attrsInv_of_fields st _ rfl rfl hP))

theorem delattrOp_attrsInv (st : State) (k : String) (hP : attrsInv st) :
    attrsInv ((delattrOp st k).1) := by
  unfold delattrOp
  split
  · exact pop_attrsInv st k hP
  · exact hP

theorem step_attrsInv_ok (st : State) (op : Op) (hP : attrsInv st)
    (hok : (step st op).2 = none) : attrsInv ((step st op).1) := by
  cases op with
  | opUpdate kwds => exact update_ok_attrsInv st kwds hP hok
  | opSetItem k v =>
    refine setitem_attrsInv st k v hP ?_ ?_ <;>
      (intro hc; rw [show (setitem st k v).2 = none from hok] at hc;
        exact Option.noConfusion hc)
  | opSetAttr k v =>
    refine setitem_attrsInv st k v hP ?_ ?_ <;>
      (intro hc; rw [show (setitem st k v).2 = none from hok] at hc;
        exact Option.noConfusion hc)
  | opPop k => exact pop_attrsInv st k hP
  | opDelItem k => exact pop_attrsInv st k hP
  | opDelAttr k => exact delattrOp_attrsInv st k hP
  | opLock ks =>
    exact attrsInv_of_fields st _ (lock_data_fields st ks).2.1
      (lock_data_fields st ks).1 hP
  | opCleanLock ks =>
    exact attrsInv_of_fields st _ (clean_lock_fields st ks).2.1
      (clean_lock_fields st ks).1 hP
  | opSave ju fp =>
    exact attrsInv_of_fields st _ (save_data_attrs st ju fp).2
      (save_data_attrs st ju fp).1 hP
  | opGet k => exact hP
  | opGetItemT keys => exact hP
  | opRepr => exact attrsInv_of_fields st _ rfl rfl hP

theorem step_attrsInv_err (st : State) (op : Op) (e : Err) (hP : attrsInv st)
    (herr : (step st op).2 = some e) (hupd : ∀ kwds, op ≠ .opUpdate kwds)
    (h1 : e ≠ .harrNoFile) (h2 : e ≠ .harrNoSaveOnEdit) :
    attrsInv ((step st op).1) := by
  cases op with
  | opUpdate kwds => exact absurd rfl (hupd kwds)
  | opSetItem k v =>
    refine setitem_attrsInv st k v hP ?_ ?_
    · intro hc
      rw [show (setitem st k v).2 = some e from herr] at hc
      exact h1 (Option.some.inj hc)
    · intro hc
      rw [show (setitem st k v).2 = some e from herr] at hc
      exact h2 (Option.some.inj hc)
  | opSetAttr k v =>
    refine setitem_attrsInv st k v hP ?_ ?_
    · intro hc
      rw [show (setitem st k v).2 = some e from herr] at hc
      exact h1 (Option.some.inj hc)
    · intro hc
      rw [show (setitem st k v).2 = some e from herr] at hc
      exact h2 (Option.some.inj hc)
  | opPop k => exact pop_attrsInv st k hP
  | opDelItem k => exact pop_attrsInv st k hP
  | opDelAttr k => exact delattrOp_attrsInv st k hP
  | opLock ks =>
    exact attrsInv_of_fields st _ (lock_data_fields st ks).2.1
      (lock_data_fields st ks).1 hP
  | opCleanLock ks =>
    exact attrsInv_of_fields st _ (clean_lock_fields st ks).2.1
      (clean_lock_fields st ks).1 hP
  | opSave ju fp =>
    exact attrsInv_of_fields st _ (save_data_attrs st ju fp).2
      (save_data_attrs st ju fp).1 hP
  | opGet k => exact hP
  | opGetItemT keys => exact hP
  | opRepr => exact attrsInv_of_fields st _ rfl rfl hP

theorem reach_attrsInv (st : State) (h : Reach st) : attrsInv st := by
  induction h with
  | ofInit fs fp soe ro ov st hinit => exact init_attrsInv fs fp soe ro ov st hinit
  | stepOk st op hr hok ih => exact step_attrsInv_ok st op ih hok
  | stepErr st op e hr herr hupd h1 h2 ih =>
    exact step_attrsInv_err st op e ih herr hupd h1 h2

/-- C4 amended: on every state reachable from the constructor through public
operations — admitting failing operations except a failing bulk update and an
item or attribute set failing the array-handle configuration checks —
known_keys equals the key set of entries. -/
theorem c4_amended (st : State) (h : Reach st) :
    ∀ k, k ∈ st._attrs ↔ k ∈ dictKeys st._data :=
  fun k => (reach_attrsInv st h).2 k

theorem c4_amended_witness :
    ("a" ∈ freshState._attrs ↔ "a" ∈ dictKeys freshState._data) :=
  c4_amended freshState
    (Reach.ofInit fs0 none false .roNone none freshState rfl) "a"

/-- C6: once fully locked (read_only True) the container stays fully locked
under every sequence of public operations; lock_data and clean_lock both fail
on a fully locked container and no other operation changes the lock state. -/
theorem c6_lock_monotonic (st : State) (h : st._read_only = .roTrue) :
    (∀ ops : List Op, (run st ops)._read_only = .roTrue) ∧
    (∀ ks, (lock_data st ks).2 = some .lockRO) ∧
    (∀ ks, (clean_lock st ks).2 = some .unlockRO) := by
  refine ⟨fun ops => run_ro_roTrue ops st h, fun ks => ?_, fun ks => ?_⟩
  · rw [lock_data_roTrue st ks h]
  · rw [clean_lock_roTrue st ks h]

theorem c6_lock_monotonic_witness :
    c6State._read_only = .roTrue ∧
    ((∀ ops : List Op, (run c6State ops)._read_only = .roTrue) ∧
     (∀ ks, (lock_data c6State ks).2 = some .lockRO) ∧
     (∀ ks, (clean_lock c6State ks).2 = some .unlockRO)) :=
  ⟨rfl, c6_lock_monotonic c6State rfl⟩

theorem c10_clean_lock_unlocked_witness :
    clean_lock freshState (some ["z"]) = (freshState, none) ∧
    (clean_lock c10State (some ["b"])).2 = some (.keyErr "b") :=
  ⟨(c10_clean_lock_unlocked freshState).1 rfl (some ["z"]),
   (c10_clean_lock_unlocked c10State).2 ["a"] "b" rfl (by decide)⟩

end Quanalys
